import Mathlib

/-!
Shallow embedding of the scattering-rate engine of `amset/scattering/basic.py`.

Numpy arrays are embedded as nested lists of real numbers; every array
operation the module performs (fancy indexing along the last axis, `diagonal`,
`sqrt`, `linalg.norm`, boolean-mask floor assignment, `tile`, broadcast
arithmetic, `full`) is given its own definition mirroring the numpy semantics
at the shapes the module uses.  Out-of-range access is modelled, as usual for
a shallow embedding, by a default value of `0` (resp. `[]`).

The unit-conversion constants `Second` (BoltzTraP2.units) and `nm_to_bohr`
(amset.constants), and the screening collaborator
`calculate_inverse_screening_length_sq` (amset.scattering.elastic), live
outside the sources under verification; they enter every definition as
explicit parameters, exactly as the spec treats them (a shared positive
time-unit factor, a nanometre-to-bohr length factor, and a per
doping/temperature inverse screening length squared).
-/

noncomputable section

namespace AmsetBasic

/-- Spin channel (pymatgen `Spin`): a dataset carries one or two channels. -/
inductive Spin where
  | up
  | down
deriving DecidableEq

/-- One-dimensional real array. -/
abbrev T1 := List ℝ

/-- Two-dimensional real array. -/
abbrev T2 := List T1

/-- Three-dimensional real array. -/
abbrev T3 := List T2

/-- Four-dimensional real array. -/
abbrev T4 := List T3

/-- Element access `a[i]` with default 0 for out-of-range indices. -/
def get1 (a : T1) (i : ℕ) : ℝ := a.getD i 0

/-- Element access `a[i, j]`. -/
def get2 (a : T2) (i j : ℕ) : ℝ := get1 (a.getD i []) j

/-- Element access `a[i, j, k]`. -/
def get3 (a : T3) (i j k : ℕ) : ℝ := get2 (a.getD i []) j k

/-- Element access `a[i, j, k, l]`. -/
def get4 (a : T4) (i j k l : ℕ) : ℝ := get3 (a.getD i []) j k l

/-- Numpy fancy indexing `row[idx]` of a one-dimensional array by an index
array (the module always indexes the last, k-point, axis this way). -/
def indexLast1 (row : T1) (idx : List ℕ) : T1 := idx.map (get1 row)

/-- Fancy indexing `a[:, idx]` of a two-dimensional array along its last axis
(`c_factor[spin][:, ir_kpoints_idx]`, basic.py line 158). -/
def indexLast2 (a : T2) (idx : List ℕ) : T2 := a.map (fun r => indexLast1 r idx)

/-- Fancy indexing `a[..., idx]` of a four-dimensional array along its last
axis (`velocities_product[spin][..., ir_kpoints_idx]` and the
`rates[..., ir_to_full_kpoint_mapping]` mesh expansion). -/
def indexLast4 (a : T4) (idx : List ℕ) : T4 :=
  a.map (fun m => m.map (fun p => p.map (fun r => indexLast1 r idx)))

/-- `np.max` of the flattened array: maximum of all elements.  (`np.max`
raises on an empty array; the empty case is junk and never reached under the
claims' hypotheses.) -/
def npMax : T1 → ℝ
  | [] => 0
  | x :: xs => xs.foldl max x

/-- `np.min` of the flattened array: minimum of all elements. -/
def npMin : T1 → ℝ
  | [] => 0
  | x :: xs => xs.foldl min x

/-- `np.linalg.norm` of a one-dimensional array: the Euclidean norm. -/
def npNorm (v : T1) : ℝ := Real.sqrt ((v.map (fun x => x ^ 2)).sum)

/-- `np.diagonal(a, axis1=1, axis2=2)` on an `(n1, n2, n3, n4)` array: numpy
removes axes 1 and 2 and appends the diagonal as the last axis, so the result
has shape `(n1, n4, min n2 n3)` with entry `(b, k, i) = a[b, i, i, k]`. -/
def npDiagonal12 (a : T4) : T3 :=
  a.map (fun m =>
    (List.range (((m.headD []).headD []).length)).map (fun k =>
      (List.range (min m.length (m.headD []).length)).map (fun i => get3 m i i k)))

/-- Elementwise `np.sqrt` on a three-dimensional array. -/
def npSqrt3 (a : T3) : T3 := a.map (fun p => p.map (fun r => r.map Real.sqrt))

/-- `np.linalg.norm(v, axis=2)` on an `(n1, n2, 3)` array. -/
def npNormAxis2 (a : T3) : T2 := a.map (fun p => p.map npNorm)

/-- The in-place boolean-mask floor assignment `v[v < c] = c`
(basic.py lines 72 and 154). -/
def clampFloor (c : ℝ) (a : T2) : T2 :=
  a.map (fun r => r.map (fun x => if x < c then c else x))

/-- `np.tile(v, (n1, n2, 1, 1))` on a two-dimensional array: the array is
copied across two new leading axes. -/
def npTile2to4 (n1 n2 : ℕ) (a : T2) : T4 :=
  (List.range n1).map (fun _ => (List.range n2).map (fun _ => a))

/-- Elementwise scalar arithmetic on a four-dimensional array
(for example `velocities * Second / mfp`). -/
def scalarMap4 (f : ℝ → ℝ) (a : T4) : T4 :=
  a.map (fun m => m.map (fun p => p.map (fun r => r.map f)))

/-- Build an `(n1, n2, n3, n4)` array from an entry function.  This is how
the embedding expresses numpy broadcast arithmetic between arrays of shapes
`(n1, n2, n3, n4)`, `(n1, n2, 1, 1)` and scalars: for these shapes the numpy
broadcasting rules make the result exactly pointwise in the four indices. -/
def tensor4 (n1 n2 n3 n4 : ℕ) (f : ℕ → ℕ → ℕ → ℕ → ℝ) : T4 :=
  (List.range n1).map (fun n => (List.range n2).map (fun t =>
    (List.range n3).map (fun b => (List.range n4).map (fun k => f n t b k))))

/-- `np.full((n1, n2, n3, n4), x)`. -/
def npFull4 (n1 n2 n3 n4 : ℕ) (x : ℝ) : T4 := tensor4 n1 n2 n3 n4 (fun _ _ _ _ => x)

/-- Rectangularity predicate: `a` is a well-formed `(n1, n2, n3, n4)` numpy
array. -/
abbrev Shape4 (a : T4) (n1 n2 n3 n4 : ℕ) : Prop :=
  a.length = n1 ∧ ∀ m ∈ a, m.length = n2 ∧ ∀ p ∈ m, p.length = n3 ∧ ∀ r ∈ p, r.length = n4

/-- The `AmsetData` electronic-structure dataset (amset.core.data), restricted
to the fields `basic.py` reads.  Per-spin band energies have shape
`(nbands, nkpoints-full)`; velocity outer products and effective masses have
shape `(nbands, 3, 3, nkpoints-full)`; Fermi levels and carrier
concentrations have shape `(ndoping, ntemperatures)`. -/
structure AmsetData where
  spins : List Spin
  energies : Spin → T2
  velocities_product : Spin → T4
  effective_mass : Spin → T4
  fermi_levels : T2
  doping : T1
  temperatures : T1
  electron_conc : T2
  hole_conc : T2
  ir_kpoints_idx : List ℕ
  ir_to_full_kpoint_mapping : List ℕ
  is_metal : Bool
  vb_idx : Spin → ℕ
  intrinsic_fermi_level : ℝ
  c_factor : Spin → T2

/-- `amset_data.fermi_levels.shape` for a rectangular two-dimensional array. -/
def fermiShape (d : AmsetData) : ℕ × ℕ :=
  (d.fermi_levels.length, (d.fermi_levels.headD []).length)

/-! ## Physics helpers (basic.py lines 196-241) -/

/-- Line 216: `vbm_e = np.max([np.max(energies[s][: vb_idx[s] + 1]) for s in spins])`,
the global valence-band maximum across all spin channels, taken over the full
k-point mesh. -/
def vbmE (d : AmsetData) : ℝ :=
  npMax (d.spins.map (fun s => npMax (((d.energies s).take (d.vb_idx s + 1)).flatten)))

/-- Line 217: `cbm_e = np.min([np.min(energies[s][vb_idx[s] + 1 :]) for s in spins])`,
the global conduction-band minimum across all spin channels. -/
def cbmE (d : AmsetData) : ℝ :=
  npMin (d.spins.map (fun s => npMin (((d.energies s).drop (d.vb_idx s + 1)).flatten)))

/-- The value of an entry of `get_normalized_energies` at band `b` and
irreducible k-point position `k`; lines 207-228.  In the metallic branch the
entry is `|E - intrinsic_fermi_level|`; otherwise bands in the slice
`[: vb_idx + 1]` (that is, `b ≤ vb_idx`) are set to `vbm_e - E` and the bands
in `[vb_idx + 1 :]` to `E - cbm_e`.  The same value is written to every
`(doping, temperature)` slot of the output. -/
def normalizedEnergyIr (d : AmsetData) (s : Spin) (b k : ℕ) : ℝ :=
  let e := get2 (d.energies s) b (d.ir_kpoints_idx.getD k 0)
  if d.is_metal then |e - d.intrinsic_fermi_level|
  else if b ≤ d.vb_idx s then vbmE d - e
  else e - cbmE d

/-- `get_normalized_energies` (lines 196-230): a per-spin array of shape
`fermi_levels.shape + (nbands, n-irreducible-k)` whose `(n, t)` slices all
hold the same `(band, irreducible-k)` matrix of normalized energies. -/
def get_normalized_energies (d : AmsetData) (s : Spin) : T4 :=
  tensor4 (fermiShape d).1 (fermiShape d).2 (d.energies s).length
    d.ir_kpoints_idx.length (fun _ _ b k => normalizedEnergyIr d s b k)

/-- `get_dos_effective_masses` (lines 233-241): restrict the effective-mass
tensor to the irreducible k-points, take the diagonal, the absolute value,
the product over the three principal components, and the power `1/3`. -/
def get_dos_effective_masses (d : AmsetData) (s : Spin) : T2 :=
  let spin_masses := indexLast4 (d.effective_mass s) d.ir_kpoints_idx
  let masses_eig := npDiagonal12 spin_masses
  let masses_abs := masses_eig.map (fun p => p.map (fun r => r.map abs))
  masses_abs.map (fun p => p.map (fun r => r.prod ^ ((1 : ℝ) / 3)))

/-! ## Group-velocity pipeline (lines 69-72 and 151-154) -/

/-- Lines 69-71 (and 151-153): restrict the velocity outer-product tensor to
the irreducible k-points, take the diagonal (squared component velocities),
`np.sqrt` it and take the Euclidean norm over the three components;
result shape `(nbands, n-irreducible-k)`. -/
def velocityNorms (d : AmsetData) (s : Spin) : T2 :=
  npNormAxis2 (npSqrt3 (npDiagonal12 (indexLast4 (d.velocities_product s) d.ir_kpoints_idx)))

/-- Line 153 of the Brooks-Herring branch additionally divides the velocity
norm by `np.sqrt(3)` (angular-average convention) before clamping. -/
def bhVelocityNorms (d : AmsetData) (s : Spin) : T2 :=
  (velocityNorms d s).map (fun r => r.map (fun x => x / Real.sqrt 3))

/-! ## ConstantRelaxationTime (lines 35-52) -/

/-- Lines 42-47: `rate = 1 / tau` broadcast with `np.full` to the shape
`fermi_levels.shape + energies[spin].shape`. -/
def crtRates (tau : ℝ) (d : AmsetData) (s : Spin) : T4 :=
  npFull4 (fermiShape d).1 (fermiShape d).2 (d.energies s).length
    ((d.energies s).headD []).length (1 / tau)

/-! ## MeanFreePathScattering (lines 55-81) -/

/-- Lines 64-75 without the final mesh expansion: clamp the velocity norms at
the floor `0.005`, tile over the doping and temperature axes, and divide by
the mean free path (converted from nm to bohr), times the time-unit factor. -/
def mfpRatesIr (Second nm_to_bohr mfp : ℝ) (d : AmsetData) (s : Spin) : T4 :=
  scalarMap4 (fun x => x * Second / (mfp * nm_to_bohr))
    (npTile2to4 d.doping.length d.temperatures.length
      (clampFloor 0.005 (velocityNorms d s)))

/-- Line 76: expand the irreducible-k rates to the full mesh via
`ir_to_full_kpoint_mapping`. -/
def mfpRates (Second nm_to_bohr mfp : ℝ) (d : AmsetData) (s : Spin) : T4 :=
  indexLast4 (mfpRatesIr Second nm_to_bohr mfp d s) d.ir_to_full_kpoint_mapping

/-! ## BrooksHerringScattering (lines 84-193) -/

/-- Lines 101-108: impurity concentration per (doping, temperature),
`|electron_conc| * donor_charge ** 2 + |hole_conc| * acceptor_charge ** 2`. -/
def impurityConcentration (Zd Za : ℝ) (d : AmsetData) (n t : ℕ) : ℝ :=
  |get2 d.electron_conc n t| * Zd ^ 2 + |get2 d.hole_conc n t| * Za ^ 2

/-- Lines 132-138: `prefactor = impurity_concentration * 8 * pi * Second /
static_dielectric ** 2`, per (doping, temperature). -/
def bhPrefactor (Second eps Zd Za : ℝ) (d : AmsetData) (n t : ℕ) : ℝ :=
  impurityConcentration Zd Za d n t * 8 * Real.pi * Second / eps ^ 2

/-- Lines 162-166: the Brooks-Herring `d_factor` as a function of the
inverse screening length squared, the polarization factor and `k_sq`. -/
def dFactor (beta c ksq : ℝ) : ℝ :=
  1 + (2 * beta * c ^ 2 / ksq) + (3 * beta ^ 2 * c ^ 4 / (4 * ksq ^ 2))

/-- Lines 167-175: the Brooks-Herring `b_factor`. -/
def bFactor (beta c ksq : ℝ) : ℝ :=
  (4 * ksq / beta) / (1 + 4 * ksq / beta)
    + (8 * c ^ 2 * (beta + 2 * ksq) / (beta + 4 * ksq))
    + (c ^ 4 * (3 * beta ^ 2 + 6 * beta * ksq - 8 * ksq ^ 2)
        / ((beta + 4 * ksq) * ksq))

/-- The raw Brooks-Herring rate entry at `(spin, n, t, band, irreducible-k)`,
before the edge-case zeroing of lines 186-187 and the mesh expansion of line
188.  `beta` is the inverse-screening-length-squared collaborator output.
Lines 144-183: `k_sq = 2 * masses * energies` (masses and the clamped
velocities and the restricted `c_factor` are tiled over the doping and
temperature axes, so their entries do not depend on `n, t`), `b = 4 k_sq /
screening`, `rate = prefactor * (d_factor * log(1 + b) - b_factor) /
(velocities * k_sq)`. -/
def bhRawRate (Second eps Zd Za : ℝ) (beta : ℕ → ℕ → ℝ) (d : AmsetData)
    (s : Spin) (n t b k : ℕ) : ℝ :=
  let ksq := 2 * get2 (get_dos_effective_masses d s) b k * normalizedEnergyIr d s b k
  let v := get2 (clampFloor 0.005 (bhVelocityNorms d s)) b k
  let c := get2 (indexLast2 (d.c_factor s) d.ir_kpoints_idx) b k
  bhPrefactor Second eps Zd Za d n t
    * (dFactor (beta n t) c ksq * Real.log (1 + 4 * ksq / beta n t)
        - bFactor (beta n t) c ksq)
    / (v * ksq)

/-- Lines 179-183, as an `(ndoping, ntemperatures, nbands, n-irreducible-k)`
array: the raw Brooks-Herring rates before edge-case zeroing and expansion. -/
def bhRawRates (Second eps Zd Za : ℝ) (beta : ℕ → ℕ → ℝ) (d : AmsetData)
    (s : Spin) : T4 :=
  tensor4 d.doping.length d.temperatures.length (d.energies s).length
    d.ir_kpoints_idx.length (bhRawRate Second eps Zd Za beta d s)

/-- One entry after the edge-case zeroing of lines 186-187: entries whose
normalized energy is below `1e-8` are forced to zero.  Line 186 first zeroes
the entries where the floating-point evaluation of the raw formula is NaN;
in the real-number semantics of this embedding division by zero yields 0 at
exactly those entries (the 0/0 at `k_sq = 0`), so that assignment is the
identity here and the claims about it are stated via the `k_sq = 0` guard. -/
def bhRateIr (Second eps Zd Za : ℝ) (beta : ℕ → ℕ → ℝ) (d : AmsetData)
    (s : Spin) (n t b k : ℕ) : ℝ :=
  if normalizedEnergyIr d s b k < 1e-8 then 0
  else bhRawRate Second eps Zd Za beta d s n t b k

/-- The zeroed Brooks-Herring rates on the irreducible mesh. -/
def bhRatesIr (Second eps Zd Za : ℝ) (beta : ℕ → ℕ → ℝ) (d : AmsetData)
    (s : Spin) : T4 :=
  tensor4 d.doping.length d.temperatures.length (d.energies s).length
    d.ir_kpoints_idx.length (bhRateIr Second eps Zd Za beta d s)

/-- Line 188: the final Brooks-Herring rates, expanded to the full mesh. -/
def bhRates (Second eps Zd Za : ℝ) (beta : ℕ → ℕ → ℝ) (d : AmsetData)
    (s : Spin) : T4 :=
  indexLast4 (bhRatesIr Second eps Zd Za beta d s) d.ir_to_full_kpoint_mapping

/-! ## Construction contract (lines 17-32, 40-47, 60-64, 89-97) -/

/-- Errors a mechanism constructor can raise.  `missingProperty` is the
failure of the dict lookup `materials_properties[p]` in line 23 (the error
the spec's taxonomy names `MissingPropertyError`); `zeroDivision` is the
Python `ZeroDivisionError` of the scalar division `1 / tau` in line 42. -/
inductive ConstructionError where
  | missingProperty (key : String)
  | zeroDivision
deriving DecidableEq

/-- Line 23: `self.properties = {p: materials_properties[p] for p in
self.required_properties}`.  The comprehension evaluates the lookups in
order and raises on the first absent key, extracting exactly the declared
keys and ignoring any extra keys of the mapping. -/
def extractProperties (required : List String) (props : List (String × ℝ)) :
    Except ConstructionError (List (String × ℝ)) :=
  match required with
  | [] => Except.ok []
  | p :: ps =>
    match props.lookup p with
    | some v =>
      match extractProperties ps props with
      | Except.ok rest => Except.ok ((p, v) :: rest)
      | Except.error e => Except.error e
    | none => Except.error (ConstructionError.missingProperty p)

/-- `ConstantRelaxationTime.__init__` (lines 40-47): extract the declared
properties, then compute `rate = 1 / tau` (a Python scalar division, which
raises `ZeroDivisionError` when `tau = 0`) and broadcast it. -/
def crtInit (props : List (String × ℝ)) (d : AmsetData) :
    Except ConstructionError (Spin → T4) := do
  let ps ← extractProperties ["constant_relaxation_time"] props
  let tau := (ps.lookup "constant_relaxation_time").getD 0
  if tau = 0 then Except.error ConstructionError.zeroDivision
  else Except.ok (fun s => crtRates tau d s)

/-- `MeanFreePathScattering.__init__` (lines 60-76): extract the declared
properties and compute the rates.  No validation of any dataset-tensor shape
is performed anywhere in the constructor.  The array arithmetic is the
totalized embedding (out-of-range access defaults to 0), so this model is
faithful to the constructor exactly on datasets whose `velocities_product`
tensors are well-formed (nbands, 3, 3, nkpoints) arrays with every entry of
`ir_kpoints_idx` and `ir_to_full_kpoint_mapping` in range: there the numpy
pipeline of lines 64-76 is defined everywhere and raises nothing.  Outside
that domain numpy raises generic `IndexError`/`ValueError` errors from the
individual array operations -- which are not a shape-consistency check
either -- and the embedding does not model them. -/
def mfpInit (Second nm_to_bohr : ℝ) (props : List (String × ℝ)) (d : AmsetData) :
    Except ConstructionError (Spin → T4) := do
  let ps ← extractProperties ["mean_free_path"] props
  let mfp := (ps.lookup "mean_free_path").getD 0
  Except.ok (fun s => mfpRates Second nm_to_bohr mfp d s)

/-! ## Concrete datasets used to evaluate the development -/

/-- A small well-formed non-metallic dataset: one spin channel, one valence
band over two full k-points (energies 0.25 and 1.0, so the valence-band
maximum is 1.0), one irreducible k-point (index 0) with both full k-points
mapping to it, velocity outer products with diagonal (9, 16, 144) and
effective masses with diagonal (1, 2, 4) at every k-point. -/
def Dtiny : AmsetData where
  spins := [Spin.up]
  energies := fun _ => [[0.25, 1.0]]
  velocities_product := fun _ =>
    [[[[9, 9], [0, 0], [0, 0]], [[0, 0], [16, 16], [0, 0]], [[0, 0], [0, 0], [144, 144]]]]
  effective_mass := fun _ =>
    [[[[1, 1], [0, 0], [0, 0]], [[0, 0], [2, 2], [0, 0]], [[0, 0], [0, 0], [4, 4]]]]
  fermi_levels := [[0]]
  doping := [1]
  temperatures := [300]
  electron_conc := [[2]]
  hole_conc := [[3]]
  ir_kpoints_idx := [0]
  ir_to_full_kpoint_mapping := [0, 0]
  is_metal := false
  vb_idx := fun _ => 0
  intrinsic_fermi_level := 0
  c_factor := fun _ => [[1, 1]]

/-- The synthetic two-band, one-irreducible-k-point non-metallic dataset of
the spec's normalized-energy test: valence band with energies (-0.5, 0.0)
(so VBM = 0 eV) and conduction band with energies (1.2, 1.0) (so
CBM = 1 eV). -/
def D3 : AmsetData where
  spins := [Spin.up]
  energies := fun _ => [[-0.5, 0], [1.2, 1]]
  velocities_product := fun _ => []
  effective_mass := fun _ => []
  fermi_levels := [[0]]
  doping := [1]
  temperatures := [300]
  electron_conc := [[0]]
  hole_conc := [[0]]
  ir_kpoints_idx := [0]
  ir_to_full_kpoint_mapping := [0, 0]
  is_metal := false
  vb_idx := fun _ => 0
  intrinsic_fermi_level := 0
  c_factor := fun _ => []

/-- A dataset whose tensor shapes disagree across the doping, temperature
and band axes, while every array operation of the `MeanFreePathScattering`
constructor stays well-defined: `fermi_levels` is 2 x 1 while `doping` has
one entry and `temperatures` two; `electron_conc` is empty while
`hole_conc` is 1 x 1; `velocities_product` is a well-formed (2, 3, 3, 1)
tensor -- two bands, identity diagonal, one k-point, so the fancy index 0
of line 69 and the expansion index 0 of line 76 are both in range -- while
`energies` has a single band.  The constructor reads only
`velocities_product`, `doping`, `temperatures`, the index arrays and
`len(energies[spin])`; it never cross-checks any of the disagreeing
shapes. -/
def D9 : AmsetData where
  spins := [Spin.up]
  energies := fun _ => [[0]]
  velocities_product := fun _ =>
    [[[[1], [0], [0]], [[0], [1], [0]], [[0], [0], [1]]],
     [[[1], [0], [0]], [[0], [1], [0]], [[0], [0], [1]]]]
  effective_mass := fun _ => []
  fermi_levels := [[0], [0]]
  doping := [1]
  temperatures := [300, 400]
  electron_conc := []
  hole_conc := [[0]]
  ir_kpoints_idx := [0]
  ir_to_full_kpoint_mapping := [0]
  is_metal := false
  vb_idx := fun _ => 0
  intrinsic_fermi_level := 0
  c_factor := fun _ => []

/-- The empty dataset. -/
def Dtriv : AmsetData where
  spins := []
  energies := fun _ => []
  velocities_product := fun _ => []
  effective_mass := fun _ => []
  fermi_levels := []
  doping := []
  temperatures := []
  electron_conc := []
  hole_conc := []
  ir_kpoints_idx := []
  ir_to_full_kpoint_mapping := []
  is_metal := false
  vb_idx := fun _ => 0
  intrinsic_fermi_level := 0
  c_factor := fun _ => []

/-! ## Basic access lemmas -/

theorem getD_map_of_lt {α β : Type _} (f : α → β) (l : List α) {i : ℕ}
    (h : i < l.length) (da : α) (db : β) :
    (l.map f).getD i db = f (l.getD i da) := by
  rw [List.getD_eq_getElem?_getD, List.getD_eq_getElem?_getD, List.getElem?_map f l i,
    List.getElem?_eq_getElem h]
  rfl

theorem getD_range {n i : ℕ} (h : i < n) (d : ℕ) : (List.range n).getD i d = i := by
  rw [List.getD_eq_getElem _ _ (by simpa using h)]
  simp

theorem getD_range_map {β : Type _} (f : ℕ → β) {n i : ℕ} (h : i < n) (db : β) :
    ((List.range n).map f).getD i db = f i := by
  rw [getD_map_of_lt f _ (by simpa using h) 0 db, getD_range h 0]

theorem headD_eq_getD {α : Type _} (l : List α) (d : α) : l.headD d = l.getD 0 d := by
  cases l <;> rfl

theorem mem_of_getElem' {α : Type _} {l : List α} {n : ℕ} {a : α}
    (h : l[n]? = some a) : a ∈ l := by
  obtain ⟨hlt, rfl⟩ := List.getElem?_eq_some.mp h
  exact List.getElem_mem hlt

theorem getD_default_or_mem {α : Type _} (l : List α) (i : ℕ) (d : α) :
    l.getD i d = d ∨ l.getD i d ∈ l := by
  by_cases h : i < l.length
  · right
    rw [List.getD_eq_getElem _ _ h]
    exact List.getElem_mem h
  · left
    exact List.getD_eq_default _ _ (by omega)

theorem getD_mem_of_lt {α : Type _} (l : List α) {i : ℕ} (h : i < l.length) (d : α) :
    l.getD i d ∈ l := by
  rw [List.getD_eq_getElem _ _ h]
  exact List.getElem_mem h

/-! ## Shape lemmas -/

theorem Shape4.len1 {a : T4} {n1 n2 n3 n4 : ℕ} (hs : Shape4 a n1 n2 n3 n4) :
    a.length = n1 := hs.1

theorem Shape4.len2 {a : T4} {n1 n2 n3 n4 : ℕ} (hs : Shape4 a n1 n2 n3 n4)
    {i : ℕ} (h : i < n1) : (a.getD i []).length = n2 := by
  have hi : i < a.length := hs.1 ▸ h
  exact (hs.2 _ (getD_mem_of_lt a hi [])).1

theorem Shape4.len3 {a : T4} {n1 n2 n3 n4 : ℕ} (hs : Shape4 a n1 n2 n3 n4)
    {i j : ℕ} (h1 : i < n1) (h2 : j < n2) :
    ((a.getD i []).getD j []).length = n3 := by
  have hi : i < a.length := hs.1 ▸ h1
  have hrow := hs.2 _ (getD_mem_of_lt a hi [])
  have hj : j < (a.getD i []).length := hrow.1 ▸ h2
  exact (hrow.2 _ (getD_mem_of_lt _ hj [])).1

/-! ## Maximum and minimum of arrays -/

theorem le_foldl_max (l : List ℝ) (a : ℝ) : a ≤ l.foldl max a := by
  induction l generalizing a with
  | nil => exact le_refl a
  | cons x xs ih => exact le_trans (le_max_left a x) (ih (max a x))

theorem mem_le_foldl_max : ∀ (l : List ℝ) (a x : ℝ), x ∈ l → x ≤ l.foldl max a
  | [], _, _, hx => absurd hx (List.not_mem_nil _)
  | y :: ys, a, x, hx => by
    rcases List.mem_cons.mp hx with rfl | h
    · exact le_trans (le_max_right a x) (le_foldl_max ys (max a x))
    · exact mem_le_foldl_max ys (max a y) x h

theorem le_npMax_of_mem {l : List ℝ} {x : ℝ} (hx : x ∈ l) : x ≤ npMax l := by
  cases l with
  | nil => cases hx
  | cons y ys =>
    rcases List.mem_cons.mp hx with rfl | h
    · exact le_foldl_max ys x
    · exact mem_le_foldl_max ys y x h

theorem foldl_min_le (l : List ℝ) (a : ℝ) : l.foldl min a ≤ a := by
  induction l generalizing a with
  | nil => exact le_refl a
  | cons x xs ih => exact le_trans (ih (min a x)) (min_le_left a x)

theorem foldl_min_le_mem : ∀ (l : List ℝ) (a x : ℝ), x ∈ l → l.foldl min a ≤ x
  | [], _, _, hx => absurd hx (List.not_mem_nil _)
  | y :: ys, a, x, hx => by
    rcases List.mem_cons.mp hx with rfl | h
    · exact le_trans (foldl_min_le ys (min a x)) (min_le_right a x)
    · exact foldl_min_le_mem ys (min a y) x h

theorem npMin_le_of_mem {l : List ℝ} {x : ℝ} (hx : x ∈ l) : npMin l ≤ x := by
  cases l with
  | nil => cases hx
  | cons y ys =>
    rcases List.mem_cons.mp hx with rfl | h
    · exact foldl_min_le ys x
    · exact foldl_min_le_mem ys y x h

/-! ## Entry and length lemmas for the array operations -/

theorem tensor4_len1 (n1 n2 n3 n4 : ℕ) (f : ℕ → ℕ → ℕ → ℕ → ℝ) :
    (tensor4 n1 n2 n3 n4 f).length = n1 := by
  simp [tensor4]

theorem tensor4_len2 (n1 n2 n3 n4 : ℕ) (f : ℕ → ℕ → ℕ → ℕ → ℝ) {n : ℕ}
    (h1 : n < n1) : ((tensor4 n1 n2 n3 n4 f).getD n []).length = n2 := by
  unfold tensor4
  rw [getD_range_map _ h1 []]
  simp

theorem tensor4_len3 (n1 n2 n3 n4 : ℕ) (f : ℕ → ℕ → ℕ → ℕ → ℝ) {n t : ℕ}
    (h1 : n < n1) (h2 : t < n2) :
    (((tensor4 n1 n2 n3 n4 f).getD n []).getD t []).length = n3 := by
  unfold tensor4
  rw [getD_range_map _ h1 [], getD_range_map _ h2 []]
  simp

theorem tensor4_get (n1 n2 n3 n4 : ℕ) (f : ℕ → ℕ → ℕ → ℕ → ℝ) {n t b k : ℕ}
    (h1 : n < n1) (h2 : t < n2) (h3 : b < n3) (h4 : k < n4) :
    get4 (tensor4 n1 n2 n3 n4 f) n t b k = f n t b k := by
  unfold tensor4 get4 get3 get2 get1
  rw [getD_range_map _ h1 [], getD_range_map _ h2 [], getD_range_map _ h3 [],
    getD_range_map _ h4 0]

theorem npTile2to4_len1 (n1 n2 : ℕ) (a : T2) : (npTile2to4 n1 n2 a).length = n1 := by
  simp [npTile2to4]

theorem npTile2to4_len2 (n1 n2 : ℕ) (a : T2) {n : ℕ} (h1 : n < n1) :
    ((npTile2to4 n1 n2 a).getD n []).length = n2 := by
  unfold npTile2to4
  rw [getD_range_map _ h1 []]
  simp

theorem npTile2to4_len3 (n1 n2 : ℕ) (a : T2) {n t : ℕ} (h1 : n < n1) (h2 : t < n2) :
    (((npTile2to4 n1 n2 a).getD n []).getD t []).length = a.length := by
  unfold npTile2to4
  rw [getD_range_map _ h1 [], getD_range_map _ h2 []]

theorem npTile2to4_len4 (n1 n2 : ℕ) (a : T2) {n t : ℕ} (h1 : n < n1) (h2 : t < n2)
    (b : ℕ) :
    ((((npTile2to4 n1 n2 a).getD n []).getD t []).getD b []).length
      = (a.getD b []).length := by
  unfold npTile2to4
  rw [getD_range_map _ h1 [], getD_range_map _ h2 []]

theorem npTile2to4_get (n1 n2 : ℕ) (a : T2) {n t : ℕ} (b k : ℕ)
    (h1 : n < n1) (h2 : t < n2) :
    get4 (npTile2to4 n1 n2 a) n t b k = get2 a b k := by
  unfold npTile2to4 get4 get3
  rw [getD_range_map _ h1 [], getD_range_map _ h2 []]

theorem scalarMap4_get (g : ℝ → ℝ) (a : T4) {n t b k : ℕ}
    (h1 : n < a.length) (h2 : t < (a.getD n []).length)
    (h3 : b < ((a.getD n []).getD t []).length)
    (h4 : k < (((a.getD n []).getD t []).getD b []).length) :
    get4 (scalarMap4 g a) n t b k = g (get4 a n t b k) := by
  unfold scalarMap4 get4 get3 get2 get1
  rw [getD_map_of_lt _ _ h1 ([] : T3) ([] : T3)]
  rw [getD_map_of_lt _ _ h2 ([] : T2) ([] : T2)]
  rw [getD_map_of_lt _ _ h3 ([] : T1) ([] : T1)]
  rw [getD_map_of_lt _ _ h4 (0 : ℝ) (0 : ℝ)]

theorem scalarMap4_len1 (g : ℝ → ℝ) (a : T4) : (scalarMap4 g a).length = a.length := by
  simp [scalarMap4]

theorem scalarMap4_len2 (g : ℝ → ℝ) (a : T4) {n : ℕ} (h1 : n < a.length) :
    ((scalarMap4 g a).getD n []).length = (a.getD n []).length := by
  unfold scalarMap4
  rw [getD_map_of_lt _ _ h1 ([] : T3) ([] : T3)]
  simp

theorem scalarMap4_len3 (g : ℝ → ℝ) (a : T4) {n t : ℕ} (h1 : n < a.length)
    (h2 : t < (a.getD n []).length) :
    (((scalarMap4 g a).getD n []).getD t []).length = ((a.getD n []).getD t []).length := by
  unfold scalarMap4
  rw [getD_map_of_lt _ _ h1 ([] : T3) ([] : T3)]
  rw [getD_map_of_lt _ _ h2 ([] : T2) ([] : T2)]
  simp

theorem indexLast4_get (a : T4) (idx : List ℕ) {n t b k : ℕ}
    (h1 : n < a.length) (h2 : t < (a.getD n []).length)
    (h3 : b < ((a.getD n []).getD t []).length) (h4 : k < idx.length) :
    get4 (indexLast4 a idx) n t b k = get4 a n t b (idx.getD k 0) := by
  unfold indexLast4 get4 get3 get2 get1
  rw [getD_map_of_lt _ _ h1 ([] : T3) ([] : T3)]
  rw [getD_map_of_lt _ _ h2 ([] : T2) ([] : T2)]
  rw [getD_map_of_lt _ _ h3 ([] : T1) ([] : T1)]
  unfold indexLast1
  rw [getD_map_of_lt _ _ h4 0 (0 : ℝ)]
  rfl

theorem indexLast2_get (a : T2) (idx : List ℕ) {b k : ℕ}
    (h1 : b < a.length) (h2 : k < idx.length) :
    get2 (indexLast2 a idx) b k = get2 a b (idx.getD k 0) := by
  unfold indexLast2 get2 get1
  rw [getD_map_of_lt _ _ h1 ([] : T1) ([] : T1)]
  unfold indexLast1
  rw [getD_map_of_lt _ _ h2 0 (0 : ℝ)]
  rfl

theorem clampFloor_get (c : ℝ) (a : T2) {b k : ℕ}
    (h1 : b < a.length) (h2 : k < (a.getD b []).length) :
    get2 (clampFloor c a) b k
      = (if get2 a b k < c then c else get2 a b k) := by
  unfold clampFloor get2 get1
  rw [getD_map_of_lt _ _ h1 ([] : T1) ([] : T1)]
  rw [getD_map_of_lt _ _ h2 (0 : ℝ) (0 : ℝ)]

theorem clampFloor_len1 (c : ℝ) (a : T2) : (clampFloor c a).length = a.length := by
  simp [clampFloor]

theorem clampFloor_len2 (c : ℝ) (a : T2) {b : ℕ} (h1 : b < a.length) :
    ((clampFloor c a).getD b []).length = (a.getD b []).length := by
  unfold clampFloor
  rw [getD_map_of_lt _ _ h1 ([] : T1) ([] : T1)]
  simp

/-- Every entry of a floor-clamped array is either the out-of-range default 0
or at least the floor, with no shape assumption. -/
theorem clampFloor_entry_cases (c : ℝ) (a : T2) (b k : ℕ) :
    get2 (clampFloor c a) b k = 0 ∨ c ≤ get2 (clampFloor c a) b k := by
  unfold get2 get1 clampFloor
  rcases getD_default_or_mem (a.map (fun r => r.map (fun x => if x < c then c else x))) b [] with h | h
  · left
    rw [h]
    rfl
  · rcases List.mem_map.mp h with ⟨r, _, hr⟩
    rw [← hr]
    rcases getD_default_or_mem (r.map fun x => if x < c then c else x) k 0 with h2 | h2
    · left
      exact h2
    · right
      rcases List.mem_map.mp h2 with ⟨x, _, hx⟩
      rw [← hx]
      by_cases hc : x < c
      · rw [if_pos hc]
      · rw [if_neg hc]
        exact le_of_not_lt hc

/-! ## The diagonal and velocity pipeline -/

theorem indexLast4_band (vp : T4) (idx : List ℕ) {b : ℕ} (hb : b < vp.length) :
    (indexLast4 vp idx).getD b []
      = (vp.getD b []).map (fun p => p.map (fun r => indexLast1 r idx)) := by
  unfold indexLast4
  exact getD_map_of_lt _ _ hb [] []

theorem diag_band (vp : T4) (idx : List ℕ) {nb nkf b : ℕ}
    (hs : Shape4 vp nb 3 3 nkf) (hb : b < nb) :
    (npDiagonal12 (indexLast4 vp idx)).getD b []
      = (List.range idx.length).map (fun k =>
          (List.range 3).map (fun i => get3 ((indexLast4 vp idx).getD b []) i i k)) := by
  have hb' : b < vp.length := hs.1 ▸ hb
  have hbA : b < (indexLast4 vp idx).length := by simpa [indexLast4] using hb'
  have hm3 : (vp.getD b []).length = 3 := hs.len2 hb
  have hr0 : ((vp.getD b []).getD 0 []).length = 3 := hs.len3 hb (by omega)
  have hband := indexLast4_band vp idx hb'
  have hMlen : ((indexLast4 vp idx).getD b []).length = 3 := by
    rw [hband]
    simpa using hm3
  have hhead : ((indexLast4 vp idx).getD b []).headD []
      = ((vp.getD b []).getD 0 []).map (fun r => indexLast1 r idx) := by
    rw [headD_eq_getD, hband]
    rw [getD_map_of_lt _ _ (by omega) ([] : T2) ([] : T2)]
  have hheadlen : (((indexLast4 vp idx).getD b []).headD []).length = 3 := by
    rw [hhead]
    simpa using hr0
  have hhh : ((((indexLast4 vp idx).getD b []).headD []).headD []).length = idx.length := by
    rw [hhead, headD_eq_getD]
    rw [getD_map_of_lt _ _ (by omega) ([] : T1) ([] : T1)]
    simp [indexLast1]
  unfold npDiagonal12
  rw [getD_map_of_lt _ _ hbA ([] : T3) ([] : T2)]
  rw [hhh, hMlen, hheadlen]
  norm_num

theorem diag_row_len (vp : T4) (idx : List ℕ) {nb nkf b : ℕ}
    (hs : Shape4 vp nb 3 3 nkf) (hb : b < nb) :
    ((npDiagonal12 (indexLast4 vp idx)).getD b []).length = idx.length := by
  rw [diag_band vp idx hs hb]
  simp

theorem diag_entry (vp : T4) (idx : List ℕ) {nb nkf b k : ℕ}
    (hs : Shape4 vp nb 3 3 nkf) (hb : b < nb) (hk : k < idx.length)
    {i : ℕ} (hi : i < 3) :
    get3 ((indexLast4 vp idx).getD b []) i i k = get4 vp b i i (idx.getD k 0) := by
  have hb' : b < vp.length := hs.1 ▸ hb
  have hm3 : (vp.getD b []).length = 3 := hs.len2 hb
  have hri : ((vp.getD b []).getD i []).length = 3 := hs.len3 hb hi
  rw [indexLast4_band vp idx hb']
  unfold get3 get2 get1 get4
  rw [getD_map_of_lt _ _ (by omega) ([] : T2) ([] : T2)]
  rw [getD_map_of_lt _ _ (by omega) ([] : T1) ([] : T1)]
  unfold indexLast1
  rw [getD_map_of_lt _ _ hk 0 (0 : ℝ)]
  rfl

theorem diag_row (vp : T4) (idx : List ℕ) {nb nkf b k : ℕ}
    (hs : Shape4 vp nb 3 3 nkf) (hb : b < nb) (hk : k < idx.length) :
    ((npDiagonal12 (indexLast4 vp idx)).getD b []).getD k []
      = [get4 vp b 0 0 (idx.getD k 0), get4 vp b 1 1 (idx.getD k 0),
         get4 vp b 2 2 (idx.getD k 0)] := by
  rw [diag_band vp idx hs hb, getD_range_map _ hk []]
  rw [show (List.range 3) = [0, 1, 2] from rfl]
  simp only [List.map_cons, List.map_nil]
  rw [diag_entry vp idx hs hb hk (show (0 : ℕ) < 3 by norm_num),
    diag_entry vp idx hs hb hk (show (1 : ℕ) < 3 by norm_num),
    diag_entry vp idx hs hb hk (show (2 : ℕ) < 3 by norm_num)]

theorem pipeline_entry (vp : T4) (idx : List ℕ) {nb nkf b k : ℕ}
    (hs : Shape4 vp nb 3 3 nkf) (hb : b < nb) (hk : k < idx.length) :
    get2 (npNormAxis2 (npSqrt3 (npDiagonal12 (indexLast4 vp idx)))) b k
      = Real.sqrt (Real.sqrt (get4 vp b 0 0 (idx.getD k 0)) ^ 2
          + (Real.sqrt (get4 vp b 1 1 (idx.getD k 0)) ^ 2
            + (Real.sqrt (get4 vp b 2 2 (idx.getD k 0)) ^ 2 + 0))) := by
  have hb' : b < vp.length := hs.1 ▸ hb
  have hbD : b < (npDiagonal12 (indexLast4 vp idx)).length := by
    simpa [npDiagonal12, indexLast4] using hb'
  have hbS : b < (npSqrt3 (npDiagonal12 (indexLast4 vp idx))).length := by
    simpa [npSqrt3] using hbD
  have hrowS : (npSqrt3 (npDiagonal12 (indexLast4 vp idx))).getD b []
      = ((npDiagonal12 (indexLast4 vp idx)).getD b []).map (fun r => r.map Real.sqrt) := by
    unfold npSqrt3
    rw [getD_map_of_lt _ _ hbD ([] : T2) ([] : T2)]
  have hkD : k < ((npDiagonal12 (indexLast4 vp idx)).getD b []).length := by
    rw [diag_row_len vp idx hs hb]
    exact hk
  have hklen : k < ((npSqrt3 (npDiagonal12 (indexLast4 vp idx))).getD b []).length := by
    rw [hrowS]
    simpa using hkD
  unfold npNormAxis2 get2 get1
  rw [getD_map_of_lt _ _ hbS ([] : T2) ([] : T1)]
  rw [getD_map_of_lt _ _ hklen ([] : T1) (0 : ℝ)]
  rw [hrowS]
  rw [getD_map_of_lt _ _ hkD ([] : T1) ([] : T1)]
  rw [diag_row vp idx hs hb hk]
  simp only [npNorm, List.map_cons, List.map_nil, List.sum_cons, List.sum_nil]

theorem velocityNorms_entry (d : AmsetData) (s : Spin) {nb nkf b k : ℕ}
    (hs : Shape4 (d.velocities_product s) nb 3 3 nkf)
    (hb : b < nb) (hk : k < d.ir_kpoints_idx.length) :
    get2 (velocityNorms d s) b k
      = Real.sqrt
          (Real.sqrt (get4 (d.velocities_product s) b 0 0 (d.ir_kpoints_idx.getD k 0)) ^ 2
            + (Real.sqrt (get4 (d.velocities_product s) b 1 1 (d.ir_kpoints_idx.getD k 0)) ^ 2
              + (Real.sqrt (get4 (d.velocities_product s) b 2 2 (d.ir_kpoints_idx.getD k 0)) ^ 2
                + 0))) := by
  unfold velocityNorms
  exact pipeline_entry (d.velocities_product s) d.ir_kpoints_idx hs hb hk

theorem velocityNorms_len1 (d : AmsetData) (s : Spin) :
    (velocityNorms d s).length = (d.velocities_product s).length := by
  simp [velocityNorms, npNormAxis2, npSqrt3, npDiagonal12, indexLast4]

theorem velocityNorms_len2 (d : AmsetData) (s : Spin) {nb nkf b : ℕ}
    (hs : Shape4 (d.velocities_product s) nb 3 3 nkf) (hb : b < nb) :
    ((velocityNorms d s).getD b []).length = d.ir_kpoints_idx.length := by
  have hb' : b < (d.velocities_product s).length := hs.1 ▸ hb
  have hbD : b < (npDiagonal12 (indexLast4 (d.velocities_product s) d.ir_kpoints_idx)).length := by
    simpa [npDiagonal12, indexLast4] using hb'
  have hbS : b < (npSqrt3 (npDiagonal12 (indexLast4 (d.velocities_product s) d.ir_kpoints_idx))).length := by
    simpa [npSqrt3] using hbD
  unfold velocityNorms npNormAxis2
  rw [getD_map_of_lt _ _ hbS ([] : T2) ([] : T1)]
  rw [List.length_map]
  unfold npSqrt3
  rw [getD_map_of_lt _ _ hbD ([] : T2) ([] : T2)]
  rw [List.length_map]
  exact diag_row_len (d.velocities_product s) d.ir_kpoints_idx hs hb

theorem bhVelocityNorms_len1 (d : AmsetData) (s : Spin) :
    (bhVelocityNorms d s).length = (d.velocities_product s).length := by
  rw [bhVelocityNorms, List.length_map, velocityNorms_len1]

theorem bhVelocityNorms_len2 (d : AmsetData) (s : Spin) {nb nkf b : ℕ}
    (hs : Shape4 (d.velocities_product s) nb 3 3 nkf) (hb : b < nb) :
    ((bhVelocityNorms d s).getD b []).length = d.ir_kpoints_idx.length := by
  have hb' : b < (velocityNorms d s).length := by
    rw [velocityNorms_len1]
    exact hs.1 ▸ hb
  unfold bhVelocityNorms
  rw [getD_map_of_lt _ _ hb' ([] : T1) ([] : T1)]
  rw [List.length_map]
  exact velocityNorms_len2 d s hs hb

theorem bhVelocityNorms_get (d : AmsetData) (s : Spin) {nb nkf b k : ℕ}
    (hs : Shape4 (d.velocities_product s) nb 3 3 nkf) (hb : b < nb)
    (hk : k < d.ir_kpoints_idx.length) :
    get2 (bhVelocityNorms d s) b k = get2 (velocityNorms d s) b k / Real.sqrt 3 := by
  have hb' : b < (velocityNorms d s).length := by
    rw [velocityNorms_len1]
    exact hs.1 ▸ hb
  have hk' : k < ((velocityNorms d s).getD b []).length := by
    rw [velocityNorms_len2 d s hs hb]
    exact hk
  unfold bhVelocityNorms get2 get1
  rw [getD_map_of_lt _ _ hb' ([] : T1) ([] : T1)]
  rw [getD_map_of_lt _ _ hk' (0 : ℝ) (0 : ℝ)]

/-! ## DOS effective-mass lemmas -/

theorem dos_len1 (d : AmsetData) (s : Spin) :
    (get_dos_effective_masses d s).length = (d.effective_mass s).length := by
  simp [get_dos_effective_masses, npDiagonal12, indexLast4]

theorem dos_len2 (d : AmsetData) (s : Spin) {nb nkf b : ℕ}
    (hs : Shape4 (d.effective_mass s) nb 3 3 nkf) (hb : b < nb) :
    ((get_dos_effective_masses d s).getD b []).length = d.ir_kpoints_idx.length := by
  have hb' : b < (d.effective_mass s).length := hs.1 ▸ hb
  have hbD : b < (npDiagonal12 (indexLast4 (d.effective_mass s) d.ir_kpoints_idx)).length := by
    simpa [npDiagonal12, indexLast4] using hb'
  have hbA : b < ((npDiagonal12 (indexLast4 (d.effective_mass s) d.ir_kpoints_idx)).map
      (fun p => p.map (fun r => r.map abs))).length := by
    simpa using hbD
  unfold get_dos_effective_masses
  rw [getD_map_of_lt _ _ hbA ([] : T2) ([] : T1)]
  rw [List.length_map]
  rw [getD_map_of_lt _ _ hbD ([] : T2) ([] : T2)]
  rw [List.length_map]
  exact diag_row_len (d.effective_mass s) d.ir_kpoints_idx hs hb

theorem dos_entry (d : AmsetData) (s : Spin) {nb nkf b k : ℕ}
    (hs : Shape4 (d.effective_mass s) nb 3 3 nkf) (hb : b < nb)
    (hk : k < d.ir_kpoints_idx.length) :
    get2 (get_dos_effective_masses d s) b k
      = (|get4 (d.effective_mass s) b 0 0 (d.ir_kpoints_idx.getD k 0)|
          * |get4 (d.effective_mass s) b 1 1 (d.ir_kpoints_idx.getD k 0)|
          * |get4 (d.effective_mass s) b 2 2 (d.ir_kpoints_idx.getD k 0)|) ^ ((1 : ℝ) / 3) := by
  have hb' : b < (d.effective_mass s).length := hs.1 ▸ hb
  have hbD : b < (npDiagonal12 (indexLast4 (d.effective_mass s) d.ir_kpoints_idx)).length := by
    simpa [npDiagonal12, indexLast4] using hb'
  have hbA : b < ((npDiagonal12 (indexLast4 (d.effective_mass s) d.ir_kpoints_idx)).map
      (fun p => p.map (fun r => r.map abs))).length := by
    simpa using hbD
  have hkD : k < ((npDiagonal12 (indexLast4 (d.effective_mass s) d.ir_kpoints_idx)).getD b []).length := by
    rw [diag_row_len (d.effective_mass s) d.ir_kpoints_idx hs hb]
    exact hk
  have hrowA : ((npDiagonal12 (indexLast4 (d.effective_mass s) d.ir_kpoints_idx)).map
        (fun p => p.map (fun r => r.map abs))).getD b []
      = ((npDiagonal12 (indexLast4 (d.effective_mass s) d.ir_kpoints_idx)).getD b []).map
          (fun r => r.map abs) := by
    rw [getD_map_of_lt _ _ hbD ([] : T2) ([] : T2)]
  have hkA : k < (((npDiagonal12 (indexLast4 (d.effective_mass s) d.ir_kpoints_idx)).map
      (fun p => p.map (fun r => r.map abs))).getD b []).length := by
    rw [hrowA]
    simpa using hkD
  unfold get_dos_effective_masses get2 get1
  rw [getD_map_of_lt _ _ hbA ([] : T2) ([] : T1)]
  rw [getD_map_of_lt _ _ hkA ([] : T1) (0 : ℝ)]
  rw [hrowA]
  rw [getD_map_of_lt _ _ hkD ([] : T1) ([] : T1)]
  rw [diag_row (d.effective_mass s) d.ir_kpoints_idx hs hb hk]
  simp only [List.map_cons, List.map_nil, List.prod_cons, List.prod_nil]
  congr 1
  ring

/-- Every entry of the DOS effective-mass array is non-negative (with no
shape assumption: out-of-range entries default to 0). -/
theorem dos_entry_nonneg (d : AmsetData) (s : Spin) (b k : ℕ) :
    0 ≤ get2 (get_dos_effective_masses d s) b k := by
  unfold get2 get1 get_dos_effective_masses
  rcases getD_default_or_mem (((npDiagonal12 (indexLast4 (d.effective_mass s) d.ir_kpoints_idx)).map
      (fun p => p.map (fun r => r.map abs))).map
      (fun p => p.map (fun r => r.prod ^ ((1 : ℝ) / 3)))) b [] with h | h
  · rw [h]
    rfl
  · rcases List.mem_map.mp h with ⟨p, hp, hpr⟩
    rw [← hpr]
    rcases getD_default_or_mem (p.map (fun r => r.prod ^ ((1 : ℝ) / 3))) k 0 with h2 | h2
    · rw [h2]
    · rcases List.mem_map.mp h2 with ⟨r, hr, hrx⟩
      rw [← hrx]
      rcases List.mem_map.mp hp with ⟨q, _, hq⟩
      rw [← hq] at hr
      rcases List.mem_map.mp hr with ⟨r0, _, hr0⟩
      refine Real.rpow_nonneg (List.prod_nonneg ?_) _
      intro x hx
      rw [← hr0] at hx
      rcases List.mem_map.mp hx with ⟨y, _, hy⟩
      rw [← hy]
      exact abs_nonneg y

/-! ## MeanFreePathScattering entry lemmas -/

theorem mfpRatesIr_len1 (Second nm_to_bohr mfp : ℝ) (d : AmsetData) (s : Spin) :
    (mfpRatesIr Second nm_to_bohr mfp d s).length = d.doping.length := by
  unfold mfpRatesIr
  rw [scalarMap4_len1, npTile2to4_len1]

theorem mfpRatesIr_len2 (Second nm_to_bohr mfp : ℝ) (d : AmsetData) (s : Spin)
    {n : ℕ} (hn : n < d.doping.length) :
    ((mfpRatesIr Second nm_to_bohr mfp d s).getD n []).length = d.temperatures.length := by
  unfold mfpRatesIr
  rw [scalarMap4_len2 _ _ (by rw [npTile2to4_len1]; exact hn)]
  exact npTile2to4_len2 _ _ _ hn

theorem mfpRatesIr_len3 (Second nm_to_bohr mfp : ℝ) (d : AmsetData) (s : Spin)
    {n t : ℕ} (hn : n < d.doping.length) (ht : t < d.temperatures.length) :
    (((mfpRatesIr Second nm_to_bohr mfp d s).getD n []).getD t []).length
      = (velocityNorms d s).length := by
  unfold mfpRatesIr
  rw [scalarMap4_len3 _ _ (by rw [npTile2to4_len1]; exact hn)
    (by rw [npTile2to4_len2 _ _ _ hn]; exact ht)]
  rw [npTile2to4_len3 _ _ _ hn ht, clampFloor_len1]

/-- The value of a `MeanFreePathScattering` rate entry on the irreducible
mesh: the clamped velocity norm times `Second` over the converted mean free
path. -/
theorem mfpRatesIr_get (Second nm_to_bohr mfp : ℝ) (d : AmsetData) (s : Spin)
    {n t b k : ℕ} (hn : n < d.doping.length) (ht : t < d.temperatures.length)
    (hb : b < (velocityNorms d s).length)
    (hk : k < ((velocityNorms d s).getD b []).length) :
    get4 (mfpRatesIr Second nm_to_bohr mfp d s) n t b k
      = (if get2 (velocityNorms d s) b k < 0.005 then 0.005
          else get2 (velocityNorms d s) b k) * Second / (mfp * nm_to_bohr) := by
  have hbc : b < (clampFloor 0.005 (velocityNorms d s)).length := by
    rw [clampFloor_len1]
    exact hb
  have hkc : k < ((clampFloor 0.005 (velocityNorms d s)).getD b []).length := by
    rw [clampFloor_len2 _ _ hb]
    exact hk
  unfold mfpRatesIr
  rw [scalarMap4_get _ _ (by rw [npTile2to4_len1]; exact hn)
    (by rw [npTile2to4_len2 _ _ _ hn]; exact ht)
    (by rw [npTile2to4_len3 _ _ _ hn ht]; exact hbc)
    (by rw [npTile2to4_len4 _ _ _ hn ht]; exact hkc)]
  rw [npTile2to4_get _ _ _ b k hn ht]
  rw [clampFloor_get _ _ hb hk]

/-! ## Claims -/

/-- Claim C7: for `ConstantRelaxationTime` constructed with relaxation time
`tau`, the per-spin rate tensor has shape (ndoping, ntemperatures, nbands,
nkpoints-full) and every entry equals exactly `1 / tau`, with no dependence
on any dataset tensor values (the tensor is a pure `np.full` broadcast). -/
theorem crt_rate_spec (tau : ℝ) (d : AmsetData) (s : Spin) (n t b k : ℕ)
    (h1 : n < (fermiShape d).1) (h2 : t < (fermiShape d).2)
    (h3 : b < (d.energies s).length) (h4 : k < ((d.energies s).headD []).length) :
    get4 (crtRates tau d s) n t b k = 1 / tau
      ∧ (crtRates tau d s).length = (fermiShape d).1
      ∧ ((crtRates tau d s).getD n []).length = (fermiShape d).2
      ∧ (((crtRates tau d s).getD n []).getD t []).length = (d.energies s).length
      ∧ ((((crtRates tau d s).getD n []).getD t []).getD b []).length
          = ((d.energies s).headD []).length := by
  refine ⟨?_, ?_, ?_, ?_, ?_⟩
  · unfold crtRates npFull4
    exact tensor4_get _ _ _ _ _ h1 h2 h3 h4
  · unfold crtRates npFull4
    exact tensor4_len1 _ _ _ _ _
  · unfold crtRates npFull4
    exact tensor4_len2 _ _ _ _ _ h1
  · unfold crtRates npFull4
    exact tensor4_len3 _ _ _ _ _ h1 h2
  · unfold crtRates npFull4 tensor4
    rw [getD_range_map _ h1 [], getD_range_map _ h2 [], getD_range_map _ h3 []]
    simp

/-- Witness for C7 at the concrete dataset `Dtiny` with `tau = 2`. -/
theorem crt_rate_spec_witness :
    get4 (crtRates 2 Dtiny Spin.up) 0 0 0 0 = 1 / 2
      ∧ (crtRates 2 Dtiny Spin.up).length = 1
      ∧ ((crtRates 2 Dtiny Spin.up).getD 0 []).length = 1
      ∧ (((crtRates 2 Dtiny Spin.up).getD 0 []).getD 0 []).length = 1
      ∧ ((((crtRates 2 Dtiny Spin.up).getD 0 []).getD 0 []).getD 0 []).length = 2 :=
  crt_rate_spec 2 Dtiny Spin.up 0 0 0 0 (by decide) (by decide) (by decide) (by decide)

/-- Claim C6: the DOS effective-mass helper returns a per-spin array of shape
(nbands, n-irreducible-k) whose entries are the geometric mean of the
absolute values of the three diagonal elements of the effective-mass tensor
at that band and irreducible k-point. -/
theorem dos_effective_mass_spec (d : AmsetData) (s : Spin) {nb nkf : ℕ} (b k : ℕ)
    (hs : Shape4 (d.effective_mass s) nb 3 3 nkf) (hb : b < nb)
    (hk : k < d.ir_kpoints_idx.length) :
    get2 (get_dos_effective_masses d s) b k
        = (|get4 (d.effective_mass s) b 0 0 (d.ir_kpoints_idx.getD k 0)|
            * |get4 (d.effective_mass s) b 1 1 (d.ir_kpoints_idx.getD k 0)|
            * |get4 (d.effective_mass s) b 2 2 (d.ir_kpoints_idx.getD k 0)|) ^ ((1 : ℝ) / 3)
      ∧ (get_dos_effective_masses d s).length = nb
      ∧ ((get_dos_effective_masses d s).getD b []).length = d.ir_kpoints_idx.length :=
  ⟨dos_entry d s hs hb hk, by rw [dos_len1]; exact hs.1, dos_len2 d s hs hb⟩

/-- Witness for C6: at `Dtiny` the principal masses are (1, 2, 4) and the
computed DOS mass is exactly 2. -/
theorem dos_effective_mass_spec_witness :
    get2 (get_dos_effective_masses Dtiny Spin.up) 0 0 = 2 := by
  have h := (dos_effective_mass_spec Dtiny Spin.up 0 0
    (show Shape4 (Dtiny.effective_mass Spin.up) 1 3 3 2 by decide)
    (by decide) (by decide)).1
  rw [h]
  show (|(1 : ℝ)| * |(2 : ℝ)| * |(4 : ℝ)|) ^ ((1 : ℝ) / 3) = 2
  rw [abs_of_nonneg (by norm_num : (0 : ℝ) ≤ 1), abs_of_nonneg (by norm_num : (0 : ℝ) ≤ 2),
    abs_of_nonneg (by norm_num : (0 : ℝ) ≤ 4)]
  rw [show (1 : ℝ) * 2 * 4 = 8 by norm_num]
  rw [show (8 : ℝ) = (2 : ℝ) ^ (3 : ℝ) by
    rw [show (3 : ℝ) = ((3 : ℕ) : ℝ) by norm_num, Real.rpow_natCast]
    norm_num]
  rw [← Real.rpow_mul (by norm_num : (0 : ℝ) ≤ 2)]
  rw [show (3 : ℝ) * ((1 : ℝ) / 3) = 1 by norm_num, Real.rpow_one]

/-- Claim C8: property extraction at construction (line 23) evaluates the
declared keys in order and fails on the first absent key with the
missing-property error naming that key (the spec's `MissingPropertyError`,
raised as the dict lookup failure); when every declared key is present it
succeeds, extracting exactly the declared keys with their values from the
mapping and ignoring any extra keys. -/
theorem extract_properties_spec (required : List String) (props : List (String × ℝ)) :
    extractProperties required props
      = match required.find? (fun p => (props.lookup p).isNone) with
        | some p => Except.error (ConstructionError.missingProperty p)
        | none => Except.ok (required.map (fun p => (p, (props.lookup p).getD 0))) := by
  induction required with
  | nil => rfl
  | cons q qs ih =>
    cases hq : props.lookup q with
    | none =>
      simp [extractProperties, hq, List.find?_cons]
    | some v =>
      cases hfind : qs.find? (fun p => (props.lookup p).isNone) with
      | some p =>
        rw [hfind] at ih
        simp [extractProperties, hq, hfind, List.find?_cons, ih]
      | none =>
        rw [hfind] at ih
        simp [extractProperties, hq, hfind, List.find?_cons, ih]

/-- Claim C10: constructing `ConstantRelaxationTime` with
`constant_relaxation_time = 0` fails at construction with the
division-by-zero error: the Python scalar division `1 / tau` of line 42 is
unguarded. -/
theorem crt_zero_tau_zero_division :
    crtInit [("constant_relaxation_time", (0 : ℝ))] Dtriv
      = Except.error ConstructionError.zeroDivision := by
  have h : crtInit [("constant_relaxation_time", (0 : ℝ))] Dtriv
      = if (0 : ℝ) = 0 then Except.error ConstructionError.zeroDivision
        else Except.ok (fun s => crtRates 0 Dtriv s) := rfl
  rw [h, if_pos rfl]

/-- Claim C2: every `MeanFreePathScattering` rate entry equals
`max(v, 0.005) * Second / (mean_free_path * nm_to_bohr)` where `v` is the
Euclidean norm of the square-rooted diagonal of the velocity outer-product
tensor at that band and the full k-point's irreducible representative;
consequently every entry is non-negative (for positive mean free path and
positive unit factors), an entry whose velocity is below the floor equals
`0.005 * Second / (mfp * nm_to_bohr)` exactly, and the rate is identical
across all doping/temperature slices for fixed (spin, band, k-point). -/
theorem mfp_rate_spec (Second nm_to_bohr mfp : ℝ) (d : AmsetData) (s : Spin)
    {nb nkf : ℕ} (n t b k : ℕ)
    (hs : Shape4 (d.velocities_product s) nb 3 3 nkf)
    (hn : n < d.doping.length) (ht : t < d.temperatures.length)
    (hb : b < nb) (hk : k < d.ir_to_full_kpoint_mapping.length)
    (hrep : d.ir_to_full_kpoint_mapping.getD k 0 < d.ir_kpoints_idx.length)
    (hS : 0 < Second) (hmfp : 0 < mfp) (hnm : 0 < nm_to_bohr) :
    get4 (mfpRates Second nm_to_bohr mfp d s) n t b k
        = max (get2 (velocityNorms d s) b (d.ir_to_full_kpoint_mapping.getD k 0)) 0.005
            * Second / (mfp * nm_to_bohr)
      ∧ get2 (velocityNorms d s) b (d.ir_to_full_kpoint_mapping.getD k 0)
          = Real.sqrt
              (Real.sqrt (get4 (d.velocities_product s) b 0 0
                  (d.ir_kpoints_idx.getD (d.ir_to_full_kpoint_mapping.getD k 0) 0)) ^ 2
                + (Real.sqrt (get4 (d.velocities_product s) b 1 1
                    (d.ir_kpoints_idx.getD (d.ir_to_full_kpoint_mapping.getD k 0) 0)) ^ 2
                  + (Real.sqrt (get4 (d.velocities_product s) b 2 2
                      (d.ir_kpoints_idx.getD (d.ir_to_full_kpoint_mapping.getD k 0) 0)) ^ 2
                    + 0)))
      ∧ 0 ≤ get4 (mfpRates Second nm_to_bohr mfp d s) n t b k
      ∧ (get2 (velocityNorms d s) b (d.ir_to_full_kpoint_mapping.getD k 0) < 0.005 →
          get4 (mfpRates Second nm_to_bohr mfp d s) n t b k
            = 0.005 * Second / (mfp * nm_to_bohr))
      ∧ (∀ n2 t2, n2 < d.doping.length → t2 < d.temperatures.length →
          get4 (mfpRates Second nm_to_bohr mfp d s) n2 t2 b k
            = get4 (mfpRates Second nm_to_bohr mfp d s) n t b k) := by
  have hbv : b < (velocityNorms d s).length := by
    rw [velocityNorms_len1]
    exact hs.1 ▸ hb
  have hkv : d.ir_to_full_kpoint_mapping.getD k 0 < ((velocityNorms d s).getD b []).length := by
    rw [velocityNorms_len2 d s hs hb]
    exact hrep
  have hexp : ∀ n2 t2, n2 < d.doping.length → t2 < d.temperatures.length →
      get4 (mfpRates Second nm_to_bohr mfp d s) n2 t2 b k
        = (if get2 (velocityNorms d s) b (d.ir_to_full_kpoint_mapping.getD k 0) < 0.005
            then 0.005
            else get2 (velocityNorms d s) b (d.ir_to_full_kpoint_mapping.getD k 0))
            * Second / (mfp * nm_to_bohr) := by
    intro n2 t2 hn2 ht2
    unfold mfpRates
    rw [indexLast4_get _ _ (by rw [mfpRatesIr_len1]; exact hn2)
      (by rw [mfpRatesIr_len2 _ _ _ _ _ hn2]; exact ht2)
      (by rw [mfpRatesIr_len3 _ _ _ _ _ hn2 ht2]; exact hbv) hk]
    exact mfpRatesIr_get _ _ _ _ _ hn2 ht2 hbv hkv
  have hmax : (if get2 (velocityNorms d s) b (d.ir_to_full_kpoint_mapping.getD k 0) < 0.005
        then (0.005 : ℝ)
        else get2 (velocityNorms d s) b (d.ir_to_full_kpoint_mapping.getD k 0))
      = max (get2 (velocityNorms d s) b (d.ir_to_full_kpoint_mapping.getD k 0)) 0.005 := by
    rcases lt_or_le (get2 (velocityNorms d s) b (d.ir_to_full_kpoint_mapping.getD k 0)) 0.005
      with h | h
    · rw [if_pos h, max_eq_right (le_of_lt h)]
    · rw [if_neg (not_lt.mpr h), max_eq_left h]
  refine ⟨?_, ?_, ?_, ?_, ?_⟩
  · rw [hexp n t hn ht, hmax]
  · exact velocityNorms_entry d s hs hb hrep
  · rw [hexp n t hn ht, hmax]
    have h0 : (0 : ℝ)
        ≤ max (get2 (velocityNorms d s) b (d.ir_to_full_kpoint_mapping.getD k 0)) 0.005 :=
      le_trans (by norm_num) (le_max_right _ _)
    exact div_nonneg (mul_nonneg h0 (le_of_lt hS)) (le_of_lt (mul_pos hmfp hnm))
  · intro hlt
    rw [hexp n t hn ht, if_pos hlt]
  · intro n2 t2 hn2 ht2
    rw [hexp n2 t2 hn2 ht2, hexp n t hn ht]

/-- Witness for C2 at `Dtiny` (velocity diagonal (9, 16, 144), so the
velocity norm is 13): all five conjuncts instantiated at concrete indices. -/
theorem mfp_rate_spec_witness :
    get4 (mfpRates 7 1 2 Dtiny Spin.up) 0 0 0 0
        = max (get2 (velocityNorms Dtiny Spin.up) 0 0) 0.005 * 7 / (2 * 1)
      ∧ get2 (velocityNorms Dtiny Spin.up) 0 0
          = Real.sqrt (Real.sqrt 9 ^ 2 + (Real.sqrt 16 ^ 2 + (Real.sqrt 144 ^ 2 + 0)))
      ∧ 0 ≤ get4 (mfpRates 7 1 2 Dtiny Spin.up) 0 0 0 0
      ∧ (get2 (velocityNorms Dtiny Spin.up) 0 0 < 0.005 →
          get4 (mfpRates 7 1 2 Dtiny Spin.up) 0 0 0 0 = 0.005 * 7 / (2 * 1))
      ∧ (∀ n2 t2, n2 < Dtiny.doping.length → t2 < Dtiny.temperatures.length →
          get4 (mfpRates 7 1 2 Dtiny Spin.up) n2 t2 0 0
            = get4 (mfpRates 7 1 2 Dtiny Spin.up) 0 0 0 0) :=
  mfp_rate_spec 7 1 2 Dtiny Spin.up 0 0 0 0
    (show Shape4 (Dtiny.velocities_product Spin.up) 1 3 3 2 by decide)
    (by decide) (by decide) (by decide) (by decide) (by decide)
    (by norm_num) (by norm_num) (by norm_num)

/-- Claim C5: for `MeanFreePathScattering` and `BrooksHerringScattering`,
the rate at each full k-point equals the rate computed at its irreducible
representative, and any two full k-points sharing the same representative
under `ir_to_full_kpoint_mapping` have identical rates. -/
theorem rates_expansion_symmetry (Second nm_to_bohr mfp eps Zd Za : ℝ)
    (beta : ℕ → ℕ → ℝ) (d : AmsetData) (s : Spin) (n t b k1 k2 : ℕ)
    (hn : n < d.doping.length) (ht : t < d.temperatures.length)
    (hbv : b < (d.velocities_product s).length) (hbe : b < (d.energies s).length)
    (hk1 : k1 < d.ir_to_full_kpoint_mapping.length)
    (hk2 : k2 < d.ir_to_full_kpoint_mapping.length)
    (heq : d.ir_to_full_kpoint_mapping.getD k1 0 = d.ir_to_full_kpoint_mapping.getD k2 0) :
    get4 (mfpRates Second nm_to_bohr mfp d s) n t b k1
        = get4 (mfpRatesIr Second nm_to_bohr mfp d s) n t b
            (d.ir_to_full_kpoint_mapping.getD k1 0)
      ∧ get4 (mfpRates Second nm_to_bohr mfp d s) n t b k1
          = get4 (mfpRates Second nm_to_bohr mfp d s) n t b k2
      ∧ get4 (bhRates Second eps Zd Za beta d s) n t b k1
          = get4 (bhRatesIr Second eps Zd Za beta d s) n t b
              (d.ir_to_full_kpoint_mapping.getD k1 0)
      ∧ get4 (bhRates Second eps Zd Za beta d s) n t b k1
          = get4 (bhRates Second eps Zd Za beta d s) n t b k2 := by
  have hbv' : b < (velocityNorms d s).length := by
    rw [velocityNorms_len1]
    exact hbv
  have hm : ∀ k', k' < d.ir_to_full_kpoint_mapping.length →
      get4 (mfpRates Second nm_to_bohr mfp d s) n t b k'
        = get4 (mfpRatesIr Second nm_to_bohr mfp d s) n t b
            (d.ir_to_full_kpoint_mapping.getD k' 0) := by
    intro k' hk'
    unfold mfpRates
    exact indexLast4_get _ _ (by rw [mfpRatesIr_len1]; exact hn)
      (by rw [mfpRatesIr_len2 _ _ _ _ _ hn]; exact ht)
      (by rw [mfpRatesIr_len3 _ _ _ _ _ hn ht]; exact hbv') hk'
  have hbh : ∀ k', k' < d.ir_to_full_kpoint_mapping.length →
      get4 (bhRates Second eps Zd Za beta d s) n t b k'
        = get4 (bhRatesIr Second eps Zd Za beta d s) n t b
            (d.ir_to_full_kpoint_mapping.getD k' 0) := by
    intro k' hk'
    unfold bhRates
    exact indexLast4_get _ _ (by unfold bhRatesIr; rw [tensor4_len1]; exact hn)
      (by unfold bhRatesIr; rw [tensor4_len2 _ _ _ _ _ hn]; exact ht)
      (by unfold bhRatesIr; rw [tensor4_len3 _ _ _ _ _ hn ht]; exact hbe) hk'
  exact ⟨hm k1 hk1, by rw [hm k1 hk1, hm k2 hk2, heq],
    hbh k1 hk1, by rw [hbh k1 hk1, hbh k2 hk2, heq]⟩

/-- Witness for C5 at `Dtiny`, whose two full k-points both map to the
irreducible representative 0. -/
theorem rates_expansion_symmetry_witness :
    get4 (mfpRates 1 1 2 Dtiny Spin.up) 0 0 0 0
        = get4 (mfpRatesIr 1 1 2 Dtiny Spin.up) 0 0 0 0
      ∧ get4 (mfpRates 1 1 2 Dtiny Spin.up) 0 0 0 0
          = get4 (mfpRates 1 1 2 Dtiny Spin.up) 0 0 0 1
      ∧ get4 (bhRates 1 2 1 1 (fun _ _ => 1) Dtiny Spin.up) 0 0 0 0
          = get4 (bhRatesIr 1 2 1 1 (fun _ _ => 1) Dtiny Spin.up) 0 0 0 0
      ∧ get4 (bhRates 1 2 1 1 (fun _ _ => 1) Dtiny Spin.up) 0 0 0 0
          = get4 (bhRates 1 2 1 1 (fun _ _ => 1) Dtiny Spin.up) 0 0 0 1 :=
  rates_expansion_symmetry 1 1 2 2 1 1 (fun _ _ => 1) Dtiny Spin.up 0 0 0 0 1
    (by decide) (by decide) (by decide) (by decide) (by decide) (by decide) (by decide)

/-- Claim C3: the normalized-energy helper returns a per-spin tensor shaped
(ndoping, ntemperatures, nbands, n-irreducible-k); in the metallic regime
every entry is `|E - intrinsic_fermi_level|` with the same value for every
(doping, temperature); in the non-metallic regime bands at or below
`vb_idx[spin]` yield `vbm_e - E` and bands above yield `E - cbm_e`, with
`vbm_e`/`cbm_e` the global valence-band maximum/conduction-band minimum
across all spin channels, so all entries are non-negative. -/
theorem normalized_energies_spec (d : AmsetData) (s : Spin) (n t b k : ℕ)
    (hspin : s ∈ d.spins)
    (hn : n < (fermiShape d).1) (ht : t < (fermiShape d).2)
    (hb : b < (d.energies s).length) (hk : k < d.ir_kpoints_idx.length)
    (hkf : d.ir_kpoints_idx.getD k 0 < ((d.energies s).getD b []).length) :
    (d.is_metal = true →
        get4 (get_normalized_energies d s) n t b k
          = |get2 (d.energies s) b (d.ir_kpoints_idx.getD k 0) - d.intrinsic_fermi_level|)
      ∧ (∀ n2 t2, n2 < (fermiShape d).1 → t2 < (fermiShape d).2 →
          get4 (get_normalized_energies d s) n2 t2 b k
            = get4 (get_normalized_energies d s) n t b k)
      ∧ (d.is_metal = false → b ≤ d.vb_idx s →
          get4 (get_normalized_energies d s) n t b k
            = vbmE d - get2 (d.energies s) b (d.ir_kpoints_idx.getD k 0))
      ∧ (d.is_metal = false → d.vb_idx s < b →
          get4 (get_normalized_energies d s) n t b k
            = get2 (d.energies s) b (d.ir_kpoints_idx.getD k 0) - cbmE d)
      ∧ 0 ≤ get4 (get_normalized_energies d s) n t b k
      ∧ (get_normalized_energies d s).length = (fermiShape d).1
      ∧ ((get_normalized_energies d s).getD n []).length = (fermiShape d).2
      ∧ (((get_normalized_energies d s).getD n []).getD t []).length
          = (d.energies s).length := by
  have hget : ∀ n2 t2, n2 < (fermiShape d).1 → t2 < (fermiShape d).2 →
      get4 (get_normalized_energies d s) n2 t2 b k = normalizedEnergyIr d s b k := by
    intro n2 t2 h1 h2
    unfold get_normalized_energies
    exact tensor4_get _ _ _ _ _ h1 h2 hb hk
  have hEmem : get2 (d.energies s) b (d.ir_kpoints_idx.getD k 0) ∈ (d.energies s).getD b [] := by
    unfold get2 get1
    exact getD_mem_of_lt _ hkf 0
  have hvb : b ≤ d.vb_idx s →
      get2 (d.energies s) b (d.ir_kpoints_idx.getD k 0) ≤ vbmE d := by
    intro hble
    have hrow : (d.energies s).getD b [] ∈ (d.energies s).take (d.vb_idx s + 1) := by
      refine mem_of_getElem' (n := ?_) ?_
      · exact b
      · rw [List.getElem?_take, if_pos (by omega), List.getElem?_eq_getElem hb,
          List.getD_eq_getElem _ _ hb]
    have hflat : get2 (d.energies s) b (d.ir_kpoints_idx.getD k 0)
        ∈ ((d.energies s).take (d.vb_idx s + 1)).flatten :=
      List.mem_flatten.mpr ⟨_, hrow, hEmem⟩
    exact le_trans (le_npMax_of_mem hflat)
      (le_npMax_of_mem (List.mem_map.mpr ⟨s, hspin, rfl⟩))
  have hcb : d.vb_idx s < b →
      cbmE d ≤ get2 (d.energies s) b (d.ir_kpoints_idx.getD k 0) := by
    intro hlt
    have hrow : (d.energies s).getD b [] ∈ (d.energies s).drop (d.vb_idx s + 1) := by
      refine mem_of_getElem' (n := ?_) ?_
      · exact b - (d.vb_idx s + 1)
      · rw [List.getElem?_drop, show d.vb_idx s + 1 + (b - (d.vb_idx s + 1)) = b by omega,
          List.getElem?_eq_getElem hb, List.getD_eq_getElem _ _ hb]
    have hflat : get2 (d.energies s) b (d.ir_kpoints_idx.getD k 0)
        ∈ ((d.energies s).drop (d.vb_idx s + 1)).flatten :=
      List.mem_flatten.mpr ⟨_, hrow, hEmem⟩
    exact le_trans (npMin_le_of_mem (List.mem_map.mpr ⟨s, hspin, rfl⟩))
      (npMin_le_of_mem hflat)
  refine ⟨?_, ?_, ?_, ?_, ?_, ?_, ?_, ?_⟩
  · intro hm
    rw [hget n t hn ht]
    simp [normalizedEnergyIr, hm]
  · intro n2 t2 h1 h2
    rw [hget n2 t2 h1 h2, hget n t hn ht]
  · intro hm hble
    rw [hget n t hn ht]
    simp [normalizedEnergyIr, hm, hble]
  · intro hm hlt
    rw [hget n t hn ht]
    simp [normalizedEnergyIr, hm, not_le.mpr hlt]
  · rw [hget n t hn ht]
    unfold normalizedEnergyIr
    by_cases hm : d.is_metal
    · simp only [hm, if_true]
      exact abs_nonneg _
    · simp only [hm, Bool.false_eq_true, if_false]
      by_cases hble : b ≤ d.vb_idx s
      · rw [if_pos hble]
        exact sub_nonneg.mpr (hvb hble)
      · rw [if_neg hble]
        exact sub_nonneg.mpr (hcb (not_le.mp hble))
  · unfold get_normalized_energies
    exact tensor4_len1 _ _ _ _ _
  · unfold get_normalized_energies
    exact tensor4_len2 _ _ _ _ _ hn
  · unfold get_normalized_energies
    exact tensor4_len3 _ _ _ _ _ hn ht

/-- Witness for C3: the spec's synthetic two-band dataset `D3` with
VBM = 0 eV and CBM = 1 eV; the valence-band energy -0.5 normalizes to 0.5
and the conduction-band energy 1.2 normalizes to 0.2. -/
theorem normalized_energies_spec_witness :
    get4 (get_normalized_energies D3 Spin.up) 0 0 0 0 = 0.5
      ∧ get4 (get_normalized_energies D3 Spin.up) 0 0 1 0 = 0.2 := by
  have h1 := normalized_energies_spec D3 Spin.up 0 0 0 0 (by decide) (by decide) (by decide)
    (by decide) (by decide) (by decide)
  have h2 := normalized_energies_spec D3 Spin.up 0 0 1 0 (by decide) (by decide) (by decide)
    (by decide) (by decide) (by decide)
  constructor
  · rw [h1.2.2.1 rfl (by decide)]
    show max (-0.5 : ℝ) 0 - (-0.5 : ℝ) = 0.5
    rw [max_eq_right (by norm_num : (-0.5 : ℝ) ≤ 0)]
    norm_num
  · rw [h2.2.2.2.1 rfl (by decide)]
    show (1.2 : ℝ) - min (1.2 : ℝ) 1 = 0.2
    rw [min_eq_right (by norm_num : (1 : ℝ) ≤ 1.2)]
    norm_num

/-- Claim C1: every raw Brooks-Herring rate entry (before the edge-case
zeroing and the mesh expansion) equals
`prefactor * (d_factor * ln(1 + b) - b_factor) / (velocity * k_sq)`, with
`k_sq = 2 * m_DOS * E_normalized`, `b = 4 * k_sq / beta_sq` (`beta_sq` the
inverse screening length squared from the screening collaborator), and
`prefactor = 8 * pi * impurity_concentration / static_dielectric ^ 2` in
the shared time-unit convention, where the impurity concentration per
(doping, temperature) is
`|electron_conc| * donor_charge ^ 2 + |hole_conc| * acceptor_charge ^ 2`. -/
theorem bh_raw_rate_formula (Second eps Zd Za : ℝ) (beta : ℕ → ℕ → ℝ)
    (d : AmsetData) (s : Spin) (n t b k : ℕ)
    (hn : n < d.doping.length) (ht : t < d.temperatures.length)
    (hb : b < (d.energies s).length) (hk : k < d.ir_kpoints_idx.length)
    (hc : b < (d.c_factor s).length) :
    ∀ ksq v c : ℝ,
      ksq = 2 * get2 (get_dos_effective_masses d s) b k * normalizedEnergyIr d s b k →
      v = get2 (clampFloor 0.005 (bhVelocityNorms d s)) b k →
      c = get2 (d.c_factor s) b (d.ir_kpoints_idx.getD k 0) →
      get4 (bhRawRates Second eps Zd Za beta d s) n t b k
        = 8 * Real.pi
            * (|get2 d.electron_conc n t| * Zd ^ 2 + |get2 d.hole_conc n t| * Za ^ 2)
            * Second / eps ^ 2
          * (dFactor (beta n t) c ksq * Real.log (1 + 4 * ksq / beta n t)
              - bFactor (beta n t) c ksq)
          / (v * ksq) := by
  intro ksq v c hksq hv hc2
  subst hksq
  subst hv
  subst hc2
  unfold bhRawRates
  rw [tensor4_get _ _ _ _ _ hn ht hb hk]
  simp only [bhRawRate, bhPrefactor, impurityConcentration]
  rw [indexLast2_get _ _ hc hk]
  ring

/-- Witness for C1 at `Dtiny` with unit charges, dielectric 2, unit
screening and unit time factor. -/
theorem bh_raw_rate_formula_witness :
    get4 (bhRawRates 1 2 1 1 (fun _ _ => 1) Dtiny Spin.up) 0 0 0 0
      = 8 * Real.pi * (|(2 : ℝ)| * 1 ^ 2 + |(3 : ℝ)| * 1 ^ 2) * 1 / 2 ^ 2
        * (dFactor 1 (get2 (Dtiny.c_factor Spin.up) 0 0)
              (2 * get2 (get_dos_effective_masses Dtiny Spin.up) 0 0
                * normalizedEnergyIr Dtiny Spin.up 0 0)
            * Real.log (1 + 4 * (2 * get2 (get_dos_effective_masses Dtiny Spin.up) 0 0
                * normalizedEnergyIr Dtiny Spin.up 0 0) / 1)
          - bFactor 1 (get2 (Dtiny.c_factor Spin.up) 0 0)
              (2 * get2 (get_dos_effective_masses Dtiny Spin.up) 0 0
                * normalizedEnergyIr Dtiny Spin.up 0 0))
        / (get2 (clampFloor 0.005 (bhVelocityNorms Dtiny Spin.up)) 0 0
            * (2 * get2 (get_dos_effective_masses Dtiny Spin.up) 0 0
              * normalizedEnergyIr Dtiny Spin.up 0 0)) :=
  bh_raw_rate_formula 1 2 1 1 (fun _ _ => 1) Dtiny Spin.up 0 0 0 0
    (by decide) (by decide) (by decide) (by decide) (by decide) _ _ _ rfl rfl rfl

/-- Claim C4: in the Brooks-Herring output, entries whose normalized energy
(at the corresponding irreducible representative) is below `1e-8` are
exactly 0; entries whose raw closed-form value is the float NaN -- the 0/0
at `k_sq = 0` -- are exactly 0 (in the real-number semantics division by
zero already gives 0 there); and for physically valid inputs (positive
inverse screening length squared) every entry is either one of those zeroed
entries or has a nonzero denominator `velocity * k_sq` and a positive
logarithm argument `1 + b`, so the closed form is well defined and the
final tensor holds no NaN. -/
theorem bh_edge_zeroing (Second eps Zd Za : ℝ) (beta : ℕ → ℕ → ℝ)
    (d : AmsetData) (s : Spin) (n t b k : ℕ)
    (hn : n < d.doping.length) (ht : t < d.temperatures.length)
    (hb : b < (d.energies s).length)
    (hk : k < d.ir_to_full_kpoint_mapping.length)
    (hrep : d.ir_to_full_kpoint_mapping.getD k 0 < d.ir_kpoints_idx.length)
    (hbeta : 0 < beta n t) :
    ∀ rep : ℕ, rep = d.ir_to_full_kpoint_mapping.getD k 0 →
      (normalizedEnergyIr d s b rep < 1e-8 →
          get4 (bhRates Second eps Zd Za beta d s) n t b k = 0)
        ∧ (2 * get2 (get_dos_effective_masses d s) b rep
              * normalizedEnergyIr d s b rep = 0 →
            get4 (bhRates Second eps Zd Za beta d s) n t b k = 0)
        ∧ (get4 (bhRates Second eps Zd Za beta d s) n t b k = 0
            ∨ (get2 (clampFloor 0.005 (bhVelocityNorms d s)) b rep
                  * (2 * get2 (get_dos_effective_masses d s) b rep
                    * normalizedEnergyIr d s b rep) ≠ 0
                ∧ 0 < 1 + 4 * (2 * get2 (get_dos_effective_masses d s) b rep
                    * normalizedEnergyIr d s b rep) / beta n t)) := by
  intro rep hrepdef
  have hrep' : rep < d.ir_kpoints_idx.length := by
    rw [hrepdef]
    exact hrep
  have hfull : get4 (bhRates Second eps Zd Za beta d s) n t b k
      = bhRateIr Second eps Zd Za beta d s n t b rep := by
    unfold bhRates
    rw [indexLast4_get _ _ (by unfold bhRatesIr; rw [tensor4_len1]; exact hn)
      (by unfold bhRatesIr; rw [tensor4_len2 _ _ _ _ _ hn]; exact ht)
      (by unfold bhRatesIr; rw [tensor4_len3 _ _ _ _ _ hn ht]; exact hb) hk]
    unfold bhRatesIr
    rw [← hrepdef]
    exact tensor4_get _ _ _ _ _ hn ht hb hrep'
  refine ⟨?_, ?_, ?_⟩
  · intro hE
    rw [hfull]
    unfold bhRateIr
    rw [if_pos hE]
  · intro hksq
    rw [hfull]
    unfold bhRateIr
    by_cases hE : normalizedEnergyIr d s b rep < 1e-8
    · rw [if_pos hE]
    · rw [if_neg hE]
      simp only [bhRawRate]
      rw [hksq]
      simp
  · by_cases hE : normalizedEnergyIr d s b rep < 1e-8
    · left
      rw [hfull]
      unfold bhRateIr
      rw [if_pos hE]
    · have hmass : 0 ≤ get2 (get_dos_effective_masses d s) b rep :=
        dos_entry_nonneg d s b rep
      have hEpos : (0 : ℝ) < normalizedEnergyIr d s b rep :=
        lt_of_lt_of_le (by norm_num) (not_lt.mp hE)
      rcases eq_or_lt_of_le hmass with hm0 | hmpos
      · left
        rw [hfull]
        unfold bhRateIr
        rw [if_neg hE]
        simp only [bhRawRate]
        rw [← hm0]
        simp
      · rcases clampFloor_entry_cases 0.005 (bhVelocityNorms d s) b rep with hv0 | hvge
        · left
          rw [hfull]
          unfold bhRateIr
          rw [if_neg hE]
          simp only [bhRawRate]
          rw [hv0]
          simp
        · right
          have hksqpos : 0 < 2 * get2 (get_dos_effective_masses d s) b rep
              * normalizedEnergyIr d s b rep :=
            mul_pos (mul_pos (by norm_num) hmpos) hEpos
          refine ⟨ne_of_gt (mul_pos (lt_of_lt_of_le (by norm_num) hvge) hksqpos), ?_⟩
          have hdiv : 0 ≤ 4 * (2 * get2 (get_dos_effective_masses d s) b rep
              * normalizedEnergyIr d s b rep) / beta n t :=
            div_nonneg (mul_nonneg (by norm_num) (le_of_lt hksqpos)) (le_of_lt hbeta)
          linarith

/-- Witness for C4 at `Dtiny`: irreducible representative 0, unit screening. -/
theorem bh_edge_zeroing_witness :
    (normalizedEnergyIr Dtiny Spin.up 0 0 < 1e-8 →
        get4 (bhRates 1 2 1 1 (fun _ _ => 1) Dtiny Spin.up) 0 0 0 0 = 0)
      ∧ (2 * get2 (get_dos_effective_masses Dtiny Spin.up) 0 0
            * normalizedEnergyIr Dtiny Spin.up 0 0 = 0 →
          get4 (bhRates 1 2 1 1 (fun _ _ => 1) Dtiny Spin.up) 0 0 0 0 = 0)
      ∧ (get4 (bhRates 1 2 1 1 (fun _ _ => 1) Dtiny Spin.up) 0 0 0 0 = 0
          ∨ (get2 (clampFloor 0.005 (bhVelocityNorms Dtiny Spin.up)) 0 0
                * (2 * get2 (get_dos_effective_masses Dtiny Spin.up) 0 0
                  * normalizedEnergyIr Dtiny Spin.up 0 0) ≠ 0
              ∧ 0 < 1 + 4 * (2 * get2 (get_dos_effective_masses Dtiny Spin.up) 0 0
                  * normalizedEnergyIr Dtiny Spin.up 0 0) / 1)) :=
  bh_edge_zeroing 1 2 1 1 (fun _ _ => 1) Dtiny Spin.up 0 0 0 0
    (by decide) (by decide) (by decide) (by decide) (by decide)
    (by exact zero_lt_one) 0 rfl

/-- Counterexample to claim C9: `basic.py` defines and raises no
shape-consistency error anywhere -- `AbstractBasicScattering.__init__`
(lines 22-27) only extracts properties and copies `doping`, `temperatures`,
band counts and `spins`, and no later line compares tensor shapes.  On the
dataset `D9` the tensor shapes disagree across the doping, temperature and
band axes, yet every array operation of lines 64-76 is well-defined (the
velocity tensor is a well-formed (2, 3, 3, 1) array and both index arrays
are in range), so constructing `MeanFreePathScattering` runs to completion
and produces rates instead of aborting with an `InconsistentShapeError`. -/
theorem shape_mismatch_no_error_counterexample :
    (mfpInit 1 1 [("mean_free_path", (1 : ℝ))] D9).isOk = true := rfl

/-- Claim C9 (amended): mechanism construction performs no shape-consistency
validation and no `InconsistentShapeError` exists in the module: whenever
the declared property is present and the constructor's array accesses are
in range (`velocities_product` a well-formed (nbands, 3, 3, nkpoints) array
per spin with both index arrays in bounds -- the domain on which this
embedding is faithful to the numpy pipeline), construction runs to
completion and returns the usual rates, no matter how the shapes of
`fermi_levels`, `doping`, `temperatures`, `electron_conc`, `hole_conc` and
`energies` disagree with one another.  Shape disagreements inside the
arrays an operation does touch surface only as that operation's generic
array-library error, not as a named shape-consistency check. -/
theorem mfp_construction_never_shape_checks (Second nm_to_bohr : ℝ)
    (props : List (String × ℝ)) (d : AmsetData) (nkf : ℕ)
    (hprop : (props.lookup "mean_free_path").isSome = true)
    (_hvp : ∀ s ∈ d.spins, Shape4 (d.velocities_product s)
        ((d.velocities_product s).length) 3 3 nkf)
    (_hir : ∀ i ∈ d.ir_kpoints_idx, i < nkf)
    (_hmap : ∀ j ∈ d.ir_to_full_kpoint_mapping, j < d.ir_kpoints_idx.length) :
    mfpInit Second nm_to_bohr props d
      = Except.ok (fun s =>
          mfpRates Second nm_to_bohr ((props.lookup "mean_free_path").getD 0) d s) := by
  rcases Option.isSome_iff_exists.mp hprop with ⟨v, hv⟩
  simp [mfpInit, extractProperties, hv, Bind.bind, Except.bind]

/-- Witness for the amended C9 at the shape-mismatched dataset `D9`, whose
velocity tensor and index arrays satisfy the in-range hypotheses. -/
theorem mfp_construction_never_shape_checks_witness :
    (∀ s ∈ D9.spins, Shape4 (D9.velocities_product s)
        ((D9.velocities_product s).length) 3 3 1)
      ∧ mfpInit 3 1 [("mean_free_path", (2 : ℝ))] D9
          = Except.ok (fun s => mfpRates 3 1 2 D9 s) :=
  ⟨by decide,
    mfp_construction_never_shape_checks 3 1 [("mean_free_path", (2 : ℝ))] D9 1
      rfl (by decide) (by decide) (by decide)⟩

end AmsetBasic
